import Mathlib

/-!
Verification of the httpx routing / middleware-composition library.

The development shallowly embeds the Go sources:
  - error.go       : the StatusError model (`GoErr`, `Error`)
  - part_000       : the fallible Handler contract
  - middleware.go  : `Chain`, `NewChain`, `Then`, `Append`, `Extend`
  - mux.go         : `Mux` (`Use`, `With`, `Group`, `Route`, `Handle`,
                     `NotFound`, `MethodNotAllowed`) and the boundary `adaptor`

Go slices are modelled with explicit backing arrays (a heap of arrays plus
slice headers), because several spec invariants are precisely about slice
copying versus aliasing.  Response writers are modelled as the list of
(status, body) write events performed through http.Error.
-/

namespace Httpx

/-- An inbound HTTP request, reduced to the fields this core reads. -/
structure Request where
  method : String
  path : String
deriving DecidableEq, Repr

/-- A response writer, modelled as the ordered list of (status code, body)
write events performed on it via http.Error. -/
abbrev RW := List (Int × String)

/-- Model of Go's http.Error(w, body, code): one write event on the writer. -/
def httpError (w : RW) (body : String) (code : Int) : RW :=
  w ++ [(code, body)]

/-- Model of a Go error value as it flows through this library: either a
statusError (error.go: message plus http status) or a plain error carrying
only a message. -/
inductive GoErr where
  | statusErr (message : String) (status : Int)
  | plain (message : String)
deriving DecidableEq, Repr

/-- Model of the Error() method: both variants expose their message. -/
def GoErr.errorMsg : GoErr → String
  | .statusErr msg _ => msg
  | .plain msg => msg

/-- Model of the type assertion err.(StatusError): a statusErr succeeds and
exposes its Status(); a plain error fails the assertion. -/
def GoErr.asStatusError : GoErr → Option Int
  | .statusErr _ s => some s
  | .plain _ => none

/-- error.go Error: builds a statusError from a status code and message. -/
def Error (status : Int) (message : String) : GoErr :=
  .statusErr message status

/-- An httpx.Handler: effects on the response writer plus an optional
returned failure (part_000: ServeHTTP(w, r) error). -/
abbrev Handler := RW → Request → RW × Option GoErr

/-- An http.HandlerFunc from the standard library: effects only, no
returned failure. -/
abbrev HttpHandler := RW → Request → RW

/-- mux.go adaptor: runs the wrapped fallible handler; on a failure that
passes the StatusError assertion it writes (status, message), and then
(unconditionally, as the source is written) also writes (500, message);
on a plain failure it writes (500, message); on success it writes nothing. -/
def adaptor (next : Handler) : HttpHandler := fun w r =>
  match next w r with
  | (w1, none) => w1
  | (w1, some err) =>
    let w2 := match err.asStatusError with
      | some s => httpError w1 err.errorMsg s
      | none => w1
    httpError w2 err.errorMsg 500

/-! ### Go slices

Several spec invariants (C4, C6) are precisely about whether a middleware
slice is copied or aliased, so slices are modelled with explicit backing
arrays: a heap is a list of arrays, a slice header names a backing array
(all slices in this library start at offset 0) and a length; the capacity
is the backing array's length. -/

/-- Heap of backing arrays for Go slices. -/
abbrev Heap (α : Type) := List (List α)

/-- A Go slice header: backing array index and length (offset is always 0
in this library; capacity is the backing array's length). -/
structure GoSlice where
  arr : Nat
  len : Nat
deriving DecidableEq, Repr

/-- The backing array of a slice. -/
def arrOf (h : Heap α) (s : GoSlice) : List α :=
  (h[s.arr]?).getD []

/-- Capacity of a slice: the length of its backing array. -/
def capS (h : Heap α) (s : GoSlice) : Nat :=
  (arrOf h s).length

/-- The elements a slice currently holds. -/
def readS (h : Heap α) (s : GoSlice) : List α :=
  (arrOf h s).take s.len

/-- Well-formed slice: its backing array exists and holds at least len
elements (Go guarantees len less than or equal to cap). -/
def wfS (h : Heap α) (s : GoSlice) : Prop :=
  s.arr < h.length ∧ s.len ≤ capS h s

instance (h : Heap α) (s : GoSlice) : Decidable (wfS h s) := by
  unfold wfS; infer_instance

/-- Overwrite the elements of a list starting at position i. -/
def writeRange (l : List α) (i : Nat) (xs : List α) : List α :=
  l.take i ++ xs ++ l.drop (i + xs.length)

/-- Go's append: if the extra elements fit in the spare capacity they are
written in place into the shared backing array; otherwise a fresh, larger
backing array is allocated and the contents copied. -/
def goAppend [Inhabited α] (h : Heap α) (s : GoSlice) (xs : List α) :
    GoSlice × Heap α :=
  if s.len + xs.length ≤ capS h s then
    (⟨s.arr, s.len + xs.length⟩, h.set s.arr (writeRange (arrOf h s) s.len xs))
  else
    let n := s.len + xs.length
    let newCap := max n (2 * capS h s)
    (⟨h.length, n⟩, h ++ [readS h s ++ xs ++ List.replicate (newCap - n) default])

/-- Go's make([]T, n): a zeroed slice with len = cap = n over a fresh array. -/
def goMake [Inhabited α] (h : Heap α) (n : Nat) : GoSlice × Heap α :=
  (⟨h.length, n⟩, h ++ [List.replicate n default])

/-- Go's make([]T, n, c): a zeroed slice with len = n over a fresh array
of capacity c. -/
def goMakeCap [Inhabited α] (h : Heap α) (n c : Nat) : GoSlice × Heap α :=
  (⟨h.length, n⟩, h ++ [List.replicate c default])

/-- Go's copy(dst, src): copies min(len dst, len src) elements into the
front of dst's backing array. -/
def goCopy (h : Heap α) (dst src : GoSlice) : Heap α :=
  h.set dst.arr (writeRange (arrOf h dst) 0 ((readS h src).take dst.len))

/-- A slice literal such as []Middleware\x7bm1, m2\x7d or the slice Go builds
for a variadic call with listed arguments: a fresh backing array holding
exactly the given elements. -/
def allocLit (h : Heap α) (xs : List α) : GoSlice × Heap α :=
  (⟨h.length, xs.length⟩, h ++ [xs])

/-! ### middleware.go : Chain -/

/-- A middleware: a transform from Handler to Handler (middleware.go). -/
abbrev Middleware := Handler → Handler

/-- A Chain holds a slice of middlewares (middleware.go). -/
structure Chain where
  middlewares : GoSlice
deriving DecidableEq, Repr

/-- middleware.go NewChain: an empty argument list yields a chain over a
fresh empty slice literal; otherwise the variadic argument slice is stored
verbatim. -/
def NewChain (h : Heap Middleware) (middlewares : GoSlice) :
    Chain × Heap Middleware :=
  if middlewares.len = 0 then
    let (s, h1) := allocLit h ([] : List Middleware)
    (⟨s⟩, h1)
  else
    (⟨middlewares⟩, h)

/-- The loop body of Then: for i from len-1 down to 0, hd := mws[i](hd);
processing the reversed list left to right is exactly that index order. -/
def thenLoop (mws : List Middleware) (hd : Handler) : Handler :=
  mws.reverse.foldl (fun acc m => m acc) hd

/-- middleware.go Chain.Then: returns hd unchanged on an empty chain,
otherwise applies the middlewares in reverse index order, producing
m1(m2(...mn(hd))). -/
def Chain.Then (h : Heap Middleware) (c : Chain) (hd : Handler) : Handler :=
  if c.middlewares.len = 0 then hd
  else thenLoop (readS h c.middlewares) hd

/-- middleware.go Chain.Append: allocates a fresh slice with capacity for
both lists, then appends the receiver's middlewares and the extra ones.
The variadic argument arrives as a slice (Extend passes another chain's
slice verbatim). -/
def Chain.Append (h : Heap Middleware) (c : Chain) (middlewares : GoSlice) :
    Chain × Heap Middleware :=
  let (nc, h1) := goMakeCap (α := Middleware) h 0 (c.middlewares.len + middlewares.len)
  let (nc2, h2) := goAppend h1 nc (readS h1 c.middlewares)
  let (nc3, h3) := goAppend h2 nc2 (readS h2 middlewares)
  (⟨nc3⟩, h3)

/-- middleware.go Chain.Extend: Append with the other chain's full slice. -/
def Chain.Extend (h : Heap Middleware) (c other : Chain) :
    Chain × Heap Middleware :=
  Chain.Append h c other.middlewares

/-! ### The delegated matching engine (chi) and the Mux (mux.go) -/

/-- Modelled from the spec: the underlying path-matching engine (chi), an
external collaborator whose code is not under src/.  Per the spec it
exposes register-any, register-method, a not-found hook setter, and a
dispatch entry point; a method-not-allowed hook is the distinct hook the
spec's design notes discuss.  Its state: the registered routes (optional
method restriction, pattern, boundary handler) and the two hooks. -/
structure EngineState where
  routes : List (Option String × String × HttpHandler)
  notFoundHook : Option HttpHandler
  methodNotAllowedHook : Option HttpHandler

/-- A freshly created engine: no routes, default hooks. -/
def emptyEngine : EngineState := ⟨[], none, none⟩

/-- Modelled from the spec: chi's register-any operation. -/
def engineHandleAny (e : EngineState) (pattern : String) (hh : HttpHandler) :
    EngineState :=
  { e with routes := e.routes ++ [(none, pattern, hh)] }

/-- Modelled from the spec: chi's register-method operation. -/
def engineHandleMethod (e : EngineState) (method pattern : String)
    (hh : HttpHandler) : EngineState :=
  { e with routes := e.routes ++ [(some method, pattern, hh)] }

/-- Modelled from the spec: chi's not-found hook setter (chi.Mux.NotFound). -/
def engineSetNotFound (e : EngineState) (hh : HttpHandler) : EngineState :=
  { e with notFoundHook := some hh }

/-- Modelled from the spec: chi's method-not-allowed hook setter
(chi.Mux.MethodNotAllowed) — the distinct hook; mux.go never calls it. -/
def engineSetMethodNotAllowed (e : EngineState) (hh : HttpHandler) :
    EngineState :=
  { e with methodNotAllowedHook := some hh }

/-- Does a route entry match the request's path and method. -/
def routeMatches (r : Request) (t : Option String × String × HttpHandler) :
    Bool :=
  t.2.1 == r.path && (t.1.getD r.method == r.method)

/-- Does a route entry match the request's path (regardless of method). -/
def pathMatches (r : Request) (t : Option String × String × HttpHandler) :
    Bool :=
  t.2.1 == r.path

/-- Modelled from the spec: the transport's default not-found response
(http.NotFound: status 404). -/
def default404 : HttpHandler := fun w _ =>
  httpError w "404 page not found" 404

/-- Modelled from the spec: the engine's default method-not-allowed
response: a 405 with an empty body. -/
def default405 : HttpHandler := fun w _ => w ++ [(405, "")]

/-- Modelled from the spec: the engine's dispatch entry point.  A request
whose path and method match a registered route runs that route's handler;
a request whose path matches some route but whose method matches none runs
the method-not-allowed hook; an unmatched path runs the not-found hook. -/
def engineDispatch (e : EngineState) (w : RW) (r : Request) : RW :=
  match e.routes.find? (routeMatches r) with
  | some t => t.2.2 w r
  | none =>
    if e.routes.any (pathMatches r) then
      (e.methodNotAllowedHook.getD default405) w r
    else
      (e.notFoundHook.getD default404) w r

/-- The Mux (mux.go): a reference to the shared engine (an index into the
engine store), a middleware slice, and the accumulated route path prefix
(Go field name: prefix). -/
structure Mux where
  chi : Nat
  middlewares : GoSlice
  pfx : String

/-- The mutable world a registration-phase call runs in: the slice heap
and the engine store (each Mux's chi field indexes into it). -/
structure RegState where
  heap : Heap Middleware
  engines : List EngineState

/-- The engine a Mux's chi field refers to. -/
def engineAt (st : RegState) (i : Nat) : EngineState :=
  (st.engines.get? i).getD emptyEngine

/-- Replace one engine in the store. -/
def RegState.setEngine (st : RegState) (i : Nat) (e : EngineState) :
    RegState :=
  { st with engines := st.engines.set i e }

/-- The callback passed to Group and Route: it registers things, mutating
the world; nil callbacks are none. -/
abbrev RouteCallback := Mux → RegState → RegState

/-- mux.go NewMux: a fresh engine, an empty middleware slice literal, and
the zero-value prefix. -/
def NewMux (st : RegState) : Mux × RegState :=
  let (s, heap) := allocLit st.heap ([] : List Middleware)
  (⟨st.engines.length, s, ""⟩,
   ⟨heap, st.engines ++ [emptyEngine]⟩)

/-- mux.go Mux.Use: appends to the receiver's middleware slice in place
(pointer receiver); the updated receiver is returned. -/
def Mux.Use (st : RegState) (m : Mux) (middlewares : List Middleware) :
    Mux × RegState :=
  let (s, heap) := goAppend st.heap m.middlewares middlewares
  ({ m with middlewares := s }, { st with heap := heap })

/-- mux.go Mux.With: make a fresh slice of the receiver's length, copy the
receiver's middlewares into it, append the extra middlewares, and return a
new Mux with the same engine and prefix over the fresh slice. -/
def Mux.With (st : RegState) (m : Mux) (middlewares : List Middleware) :
    Mux × RegState :=
  let (mws, heap) := goMake st.heap m.middlewares.len
  let heap2 := goCopy heap mws m.middlewares
  let (mws2, heap3) := goAppend heap2 mws middlewares
  ({ chi := m.chi, middlewares := mws2, pfx := m.pfx },
   { st with heap := heap3 })

/-- mux.go Mux.Group: With() with no extra middleware, then the callback
(when non-nil) run on the new instance, which is returned. -/
def Mux.Group (st : RegState) (m : Mux) (fn : Option RouteCallback) :
    Mux × RegState :=
  let (im, st1) := Mux.With st m []
  let st2 := match fn with
    | some f => f im st1
    | none => st1
  (im, st2)

/-- mux.go Mux.Route: reads the pattern's last byte (none models the Go
panic from indexing an empty string), appends a slash when that byte is
not a slash, derives a new instance via With(), extends its prefix with
the normalized pattern, and runs the callback when non-nil. -/
def Mux.Route (st : RegState) (m : Mux) (pattern : String)
    (fn : Option RouteCallback) : Option (Mux × RegState) :=
  match pattern.data.getLast? with
  | none => none
  | some c =>
    let pat := if c ≠ '/' then pattern ++ "/" else pattern
    let (im, st1) := Mux.With st m []
    let im2 := { im with pfx := im.pfx ++ pat }
    let st2 := match fn with
      | some f => f im2 st1
      | none => st1
    some (im2, st2)

/-- mux.go Mux.Handle: registers prefix+pattern for any method against the
chain of the active middlewares composed onto the handler, wrapped by the
boundary adaptor. -/
def Mux.Handle (st : RegState) (m : Mux) (pattern : String)
    (handler : Handler) : RegState :=
  let (c, heap) := NewChain st.heap m.middlewares
  let hh := adaptor (Chain.Then heap c handler)
  let st1 := { st with heap := heap }
  st1.setEngine m.chi (engineHandleAny (engineAt st1 m.chi) (m.pfx ++ pattern) hh)

/-- mux.go Mux.Method: like Handle but registration is restricted to one
http method. -/
def Mux.Method (st : RegState) (m : Mux) (method pattern : String)
    (handler : Handler) : RegState :=
  let (c, heap) := NewChain st.heap m.middlewares
  let hh := adaptor (Chain.Then heap c handler)
  let st1 := { st with heap := heap }
  st1.setEngine m.chi
    (engineHandleMethod (engineAt st1 m.chi) method (m.pfx ++ pattern) hh)

/-- mux.go Mux.NotFound: installs the adaptor-wrapped handler at the
engine's not-found hook (m.chi.NotFound). -/
def Mux.NotFound (st : RegState) (m : Mux) (handlerFn : Handler) :
    RegState :=
  st.setEngine m.chi (engineSetNotFound (engineAt st m.chi) (adaptor handlerFn))

/-- mux.go Mux.MethodNotAllowed: as written in the source, this also calls
m.chi.NotFound, installing the handler at the engine's not-found hook (not
at the method-not-allowed hook). -/
def Mux.MethodNotAllowed (st : RegState) (m : Mux) (handlerFn : Handler) :
    RegState :=
  st.setEngine m.chi (engineSetNotFound (engineAt st m.chi) (adaptor handlerFn))

/-- mux.go Mux.ServeHTTP: delegates to the engine's dispatch. -/
def Mux.ServeHTTP (st : RegState) (m : Mux) (w : RW) (r : Request) : RW :=
  engineDispatch (engineAt st m.chi) w r

/-- An instrumented middleware: it observes the request by writing marker
i, then calls the next handler. -/
def obsMw (i : Nat) : Middleware := fun next w r =>
  next (w ++ [((0 : Int), toString i)]) r

/-- An instrumented end handler: it writes marker n and succeeds. -/
def obsHandler (n : Nat) : Handler := fun w _ =>
  (w ++ [((0 : Int), toString n)], none)

/-! ### Theorems -/

/-! Heap and slice lemmas. -/

/-- Setting an unrelated backing array leaves a slice's array unchanged. -/
theorem arrOf_set_ne (h : Heap α) (i : Nat) (a : List α) (s : GoSlice)
    (hne : i ≠ s.arr) : arrOf (h.set i a) s = arrOf h s := by
  simp [arrOf, List.getElem?_set_ne hne]

/-- Setting a slice's own backing array replaces what it sees. -/
theorem arrOf_set_self (h : Heap α) (a : List α) (s : GoSlice)
    (hlt : s.arr < h.length) : arrOf (h.set s.arr a) s = a := by
  simp [arrOf, List.getElem?_set_eq_of_lt a hlt]

/-- Allocating a fresh array leaves existing slices' arrays unchanged. -/
theorem arrOf_append_lt (h : Heap α) (a : List α) (s : GoSlice)
    (hlt : s.arr < h.length) : arrOf (h ++ [a]) s = arrOf h s := by
  simp [arrOf, List.getElem?_append_left hlt]

/-- A slice whose array index equals the old heap length sees the newly
allocated array. -/
theorem arrOf_append_self (h : Heap α) (a : List α) (s : GoSlice)
    (heq : s.arr = h.length) : arrOf (h ++ [a]) s = a := by
  simp [arrOf, heq, List.getElem?_concat_length]

/-- Slices that see equal backing arrays read equal contents. -/
theorem readS_congr {α : Type} {h1 h2 : Heap α} {s : GoSlice}
    (he : arrOf h1 s = arrOf h2 s) : readS h1 s = readS h2 s := by
  simp [readS, he]

/-- A well-formed slice reads exactly len elements. -/
theorem length_readS (h : Heap α) (s : GoSlice) (hwf : wfS h s) :
    (readS h s).length = s.len := by
  have h2 := hwf.2
  simp [capS] at h2
  simp [readS]
  omega

/-- Go's append of a well-formed slice: the resulting slice holds the old
elements followed by the new ones, is well formed, sits either in the old
backing array or in a fresh one at the old heap length, and the heap only
grows. -/
theorem goAppend_spec [Inhabited α] (h : Heap α) (s : GoSlice)
    (xs : List α) (hwf : wfS h s) :
    (goAppend h s xs).1.len = s.len + xs.length ∧
    readS (goAppend h s xs).2 (goAppend h s xs).1 = readS h s ++ xs ∧
    wfS (goAppend h s xs).2 (goAppend h s xs).1 ∧
    ((goAppend h s xs).1.arr = s.arr ∨ (goAppend h s xs).1.arr = h.length) ∧
    h.length ≤ (goAppend h s xs).2.length := by
  have hcap : s.len ≤ (arrOf h s).length := hwf.2
  have hlenr : (readS h s).length = s.len := length_readS h s hwf
  unfold goAppend
  split
  next hfit =>
    simp only [capS] at hfit
    have hA : arrOf (h.set s.arr (writeRange (arrOf h s) s.len xs))
        ⟨s.arr, s.len + xs.length⟩ = writeRange (arrOf h s) s.len xs :=
      arrOf_set_self h _ ⟨s.arr, s.len + xs.length⟩ hwf.1
    have hwr : (writeRange (arrOf h s) s.len xs).length
        = (arrOf h s).length := by
      simp [writeRange]
      omega
    refine ⟨rfl, ?_, ⟨by simpa using hwf.1, ?_⟩, Or.inl rfl, by simp⟩
    · show (arrOf _ ⟨s.arr, s.len + xs.length⟩).take (s.len + xs.length)
        = readS h s ++ xs
      rw [hA]
      show ((arrOf h s).take s.len ++ xs
          ++ (arrOf h s).drop (s.len + xs.length)).take (s.len + xs.length)
        = readS h s ++ xs
      rw [List.append_assoc]
      have hl : s.len + xs.length
          = ((arrOf h s).take s.len).length + xs.length := by
        simp
        omega
      rw [hl, List.take_append, List.take_left]
      rfl
    · show s.len + xs.length ≤ capS _ ⟨s.arr, s.len + xs.length⟩
      simp only [capS]
      rw [hA, hwr]
      exact hfit
  next hnofit =>
    simp only [capS] at hnofit
    have harr : arrOf
        (h ++ [readS h s ++ xs
          ++ List.replicate (max (s.len + xs.length)
              (2 * (arrOf h s).length) - (s.len + xs.length)) default])
        ⟨h.length, s.len + xs.length⟩
        = readS h s ++ xs
          ++ List.replicate (max (s.len + xs.length)
              (2 * (arrOf h s).length) - (s.len + xs.length)) default :=
      arrOf_append_self h _ ⟨h.length, s.len + xs.length⟩ rfl
    refine ⟨rfl, ?_, ⟨by simp, ?_⟩, Or.inr rfl, by simp⟩
    · show (arrOf _ ⟨h.length, s.len + xs.length⟩).take (s.len + xs.length)
        = readS h s ++ xs
      simp only [capS]
      rw [harr]
      have hl : s.len + xs.length = (readS h s).length + xs.length := by
        omega
      rw [List.append_assoc, hl, List.take_append, List.take_left]
    · show s.len + xs.length ≤ capS _ ⟨h.length, s.len + xs.length⟩
      simp only [capS]
      rw [harr]
      simp
      omega

/-- Appending to one slice never changes the backing array of a live
slice over a different array. -/
theorem goAppend_frame [Inhabited α] (h : Heap α) (s t : GoSlice)
    (xs : List α) (hne : t.arr ≠ s.arr) (hlt : t.arr < h.length) :
    arrOf (goAppend h s xs).2 t = arrOf h t := by
  unfold goAppend
  split
  · exact arrOf_set_ne h s.arr _ t (fun he => hne he.symm)
  · exact arrOf_append_lt h _ t hlt

/-- C1: the claim says a failure exposing status s and message msg makes
the adaptor write exactly one response (status s, body msg) with no
additional 500 write.  The source violates this: for a handler returning
Error(404, "not found") the adaptor performs two writes, the 404 response
and then also a 500 response with the same message. -/
theorem c1_adaptor_double_write_on_status_failure :
    adaptor (fun w _ => (w, some (Error 404 "not found"))) []
        ⟨"GET", "/x"⟩
      = [(404, "not found"), (500, "not found")] := by
  rfl

/-- C8: for a handler returning a failure that does not pass the
StatusError assertion, the adaptor writes exactly one (500, message)
response after the handler's own writes; for a handler returning no
failure, the adaptor writes nothing beyond what the handler wrote. -/
theorem c8_adaptor_plain_failure_and_success (h : Handler) (w : RW)
    (r : Request) :
    ((h w r).2 = none → adaptor h w r = (h w r).1) ∧
    (∀ msg, (h w r).2 = some (GoErr.plain msg) →
      adaptor h w r = (h w r).1 ++ [(500, msg)]) := by
  rcases hval : h w r with ⟨w1, e⟩
  constructor
  · intro he
    simp at he
    simp [adaptor, hval, he]
  · intro msg he
    simp at he
    simp [adaptor, hval, he, GoErr.asStatusError, GoErr.errorMsg, httpError]

/-- Witness for C8: a successful handler's writes pass through untouched,
and a plain failure "boom" yields the single write (500, "boom"). -/
theorem c8_adaptor_plain_failure_and_success_witness :
    adaptor (fun w _ => (w ++ [(200, "ok")], none)) [] ⟨"GET", "/"⟩
        = [(200, "ok")] ∧
    adaptor (fun w _ => (w, some (GoErr.plain "boom"))) [] ⟨"GET", "/"⟩
        = [(500, "boom")] := by
  constructor
  · simpa using
      (c8_adaptor_plain_failure_and_success
        (fun w _ => (w ++ [(200, "ok")], none)) [] ⟨"GET", "/"⟩).1 rfl
  · simpa using
      (c8_adaptor_plain_failure_and_success
        (fun w _ => (w, some (GoErr.plain "boom"))) [] ⟨"GET", "/"⟩).2
        "boom" rfl

/-- C2: the claim says MethodNotAllowed installs its handler at an engine
hook distinct from NotFound's, so after NotFound(f) and
MethodNotAllowed(g) an unmatched-path request reaches f and a
matched-path/unmatched-method request reaches g.  The source violates
this: MethodNotAllowed also calls the engine's not-found setter, so g
clobbers f at the not-found hook, the method-not-allowed hook stays
unset, an unmatched-path request (GET /zzz) runs g, and a
matched-path/unmatched-method request (POST /a) runs the engine default
405, never g. -/
theorem c2_methodNotAllowed_conflated_with_notFound :
    let st0 : RegState := ⟨[], []⟩
    let p := NewMux st0
    let m := p.1
    let st1 := Mux.Method p.2 m "GET" "/a" (fun w _ => (w ++ [(200, "A")], none))
    let f : Handler := fun w _ => (w ++ [(404, "F")], none)
    let g : Handler := fun w _ => (w ++ [(405, "G")], none)
    let st2 := Mux.NotFound st1 m f
    let st3 := Mux.MethodNotAllowed st2 m g
    (engineAt st3 m.chi).notFoundHook = some (adaptor g) ∧
    (engineAt st3 m.chi).methodNotAllowedHook = none ∧
    Mux.ServeHTTP st3 m [] ⟨"GET", "/zzz"⟩ = [(405, "G")] ∧
    Mux.ServeHTTP st3 m [] ⟨"POST", "/a"⟩ = [(405, "")] := by
  exact ⟨rfl, rfl, rfl, rfl⟩

/-- Specification of Mux.With: the derived Mux shares the engine and the
prefix, its middleware list is a fresh copy of the receiver's list with
the extras appended (the backing array is newly allocated, never the
receiver's), and no pre-existing backing array is touched. -/
theorem With_spec (st : RegState) (m : Mux) (xs : List Middleware)
    (hwf : wfS st.heap m.middlewares) :
    (Mux.With st m xs).1.chi = m.chi ∧
    (Mux.With st m xs).1.pfx = m.pfx ∧
    (Mux.With st m xs).2.engines = st.engines ∧
    readS (Mux.With st m xs).2.heap (Mux.With st m xs).1.middlewares
      = readS st.heap m.middlewares ++ xs ∧
    st.heap.length ≤ (Mux.With st m xs).1.middlewares.arr ∧
    wfS (Mux.With st m xs).2.heap (Mux.With st m xs).1.middlewares ∧
    (∀ t : GoSlice, t.arr < st.heap.length →
      arrOf (Mux.With st m xs).2.heap t = arrOf st.heap t) := by
  obtain ⟨hlt, hle⟩ := hwf
  simp only [capS] at hle
  set hp := st.heap with hhp
  set N := hp.length with hN
  set L := m.middlewares.len with hL
  set R := readS hp m.middlewares with hR
  have hRlen : R.length = L := length_readS hp m.middlewares ⟨hlt, by simpa [capS] using hle⟩
  -- step 1: make
  set h1 : Heap Middleware := hp ++ [List.replicate L default] with hh1
  set mws : GoSlice := ⟨N, L⟩ with hmws
  have hh1len : h1.length = N + 1 := by simp [hh1]
  have harr1 : arrOf h1 mws = List.replicate L default :=
    arrOf_append_self hp _ mws rfl
  have harr1m : arrOf h1 m.middlewares = arrOf hp m.middlewares :=
    arrOf_append_lt hp _ m.middlewares hlt
  have hread1m : readS h1 m.middlewares = R := readS_congr harr1m
  -- step 2: copy
  set h2 : Heap Middleware :=
    goCopy h1 mws m.middlewares with hh2
  have hh2eq : h2 = h1.set N R := by
    rw [hh2]
    unfold goCopy
    rw [hread1m, harr1]
    congr 1
    simp [writeRange, hRlen]
  have hh2len : h2.length = N + 1 := by rw [hh2eq]; simp [hh1]
  have harr2 : arrOf h2 mws = R := by
    rw [hh2eq]
    exact arrOf_set_self h1 R mws (by simp only [hmws]; omega)
  have hwf2 : wfS h2 mws := by
    refine ⟨by simp only [hmws]; omega, ?_⟩
    simp only [capS, harr2, hmws]
    omega
  have hread2 : readS h2 mws = R := by
    simp only [readS, harr2, hmws]
    rw [List.take_of_length_le (by omega)]
  -- step 3: append
  have hspec := goAppend_spec h2 mws xs hwf2
  have hframe2 : ∀ t : GoSlice, t.arr < N → arrOf h2 t = arrOf hp t := by
    intro t ht
    rw [hh2eq]
    rw [arrOf_set_ne h1 N R t (by omega)]
    exact arrOf_append_lt hp _ t ht
  have hgoal : Mux.With st m xs
      = ({ chi := m.chi, middlewares := (goAppend h2 mws xs).1, pfx := m.pfx },
         { st with heap := (goAppend h2 mws xs).2 }) := by
    rfl
  rw [hgoal]
  refine ⟨rfl, rfl, rfl, ?_, ?_, ?_, ?_⟩
  · show readS (goAppend h2 mws xs).2 (goAppend h2 mws xs).1 = R ++ xs
    rw [hspec.2.1, hread2]
  · show N ≤ (goAppend h2 mws xs).1.arr
    rcases hspec.2.2.2.1 with hc | hc
    · rw [hc]
    · rw [hc]; omega
  · exact hspec.2.2.1
  · intro t ht
    show arrOf (goAppend h2 mws xs).2 t = arrOf hp t
    rw [goAppend_frame h2 mws t xs (by simp [hmws]; omega) (by omega)]
    exact hframe2 t ht

/-- The downward-index loop of Then is the right fold of the middleware
list: the result is m1 applied to m2 applied to ... mn applied to hd. -/
theorem thenLoop_eq_foldr (mws : List Middleware) (hd : Handler) :
    thenLoop mws hd = mws.foldr (fun m k => m k) hd := by
  unfold thenLoop
  induction mws with
  | nil => rfl
  | cons m ms ih =>
    simp only [List.reverse_cons, List.foldl_append, List.foldl_cons,
      List.foldl_nil, List.foldr_cons] at *
    rw [ih]

/-- Running the right fold of instrumented middlewares appends their
markers in index order before the end handler runs. -/
theorem foldr_obsMw_trace (L : List Nat) (hd : Handler) (w : RW)
    (r : Request) :
    ((L.map obsMw).foldr (fun m k => m k) hd) w r
      = hd (w ++ L.map (fun i => ((0 : Int), toString i))) r := by
  induction L generalizing w with
  | nil => simp
  | cons i L ih =>
    simp only [List.map_cons, List.foldr_cons, obsMw]
    rw [ih]
    simp

/-- C3: a chain built over the ordered middleware list applies them in
declaration order.  First conjunct: Then is the right fold of the chain's
list, i.e. m1(m2(...(mn(hd)))).  Second conjunct: with instrumented
middlewares 0..n-1 (as built by a call NewChain(m0,...,m(n-1))) and an
instrumented end handler n, the composed handler records the observation
markers 0, 1, ..., n-1, n — each middleware first to last, then the
handler, each exactly once. -/
theorem c3_then_composes_in_declaration_order :
    (∀ (hp : Heap Middleware) (c : Chain) (hd : Handler),
      Chain.Then hp c hd
        = (readS hp c.middlewares).foldr (fun m k => m k) hd) ∧
    (∀ (n : Nat) (r : Request),
      (Chain.Then
          (NewChain (allocLit [] ((List.range n).map obsMw)).2
            (allocLit [] ((List.range n).map obsMw)).1).2
          (NewChain (allocLit [] ((List.range n).map obsMw)).2
            (allocLit [] ((List.range n).map obsMw)).1).1
          (obsHandler n)) [] r
        = ((List.range (n + 1)).map (fun i => ((0 : Int), toString i)),
           none)) := by
  constructor
  · intro hp c hd
    unfold Chain.Then
    by_cases h0 : c.middlewares.len = 0
    · simp [h0, readS, h0, List.take_zero]
    · simp [h0, thenLoop_eq_foldr]
  · intro n r
    by_cases hn : n = 0
    · subst hn
      simp [NewChain, allocLit, Chain.Then, obsHandler, List.range_succ]
    · have hlen : ((List.range n).map obsMw).length = n := by simp
      have hne : ¬ (allocLit ([] : Heap Middleware)
          ((List.range n).map obsMw)).1.len = 0 := by
        simp [allocLit, hn]
      rw [NewChain, if_neg hne]
      rw [Chain.Then, if_neg hne]
      have hread : readS (allocLit ([] : Heap Middleware)
            ((List.range n).map obsMw)).2
          (allocLit ([] : Heap Middleware) ((List.range n).map obsMw)).1
          = (List.range n).map obsMw := by
        simp [allocLit, readS, arrOf]
      rw [hread, thenLoop_eq_foldr, foldr_obsMw_trace]
      simp [obsHandler, List.range_succ]

/-- C7: NewChain with a zero-length argument slice yields a genuine empty
chain (a chain over a fresh empty slice, length zero), and Then on it
returns the given handler itself — composing with zero middlewares is the
identity transform. -/
theorem c7_empty_chain_then_is_identity (h : Heap Middleware) (s : GoSlice)
    (hs : s.len = 0) :
    (NewChain h s).1.middlewares.len = 0 ∧
    readS (NewChain h s).2 (NewChain h s).1.middlewares = [] ∧
    ∀ hd : Handler, Chain.Then (NewChain h s).2 (NewChain h s).1 hd = hd := by
  rw [NewChain, if_pos hs]
  refine ⟨rfl, by simp [allocLit, readS, arrOf], ?_⟩
  intro hd
  rfl

/-- Witness for C7 at the empty heap and a zero-length slice header: the
chain NewChain builds is empty and Then hands back the concrete handler. -/
theorem c7_empty_chain_then_is_identity_witness :
    (NewChain ([] : Heap Middleware) ⟨0, 0⟩).1.middlewares.len = 0 ∧
    Chain.Then (NewChain ([] : Heap Middleware) ⟨0, 0⟩).2
        (NewChain ([] : Heap Middleware) ⟨0, 0⟩).1
        (fun w _ => (w ++ [((200 : Int), "ok")], none))
      = (fun w _ => (w ++ [((200 : Int), "ok")], none)) := by
  exact ⟨(c7_empty_chain_then_is_identity [] ⟨0, 0⟩ rfl).1,
    (c7_empty_chain_then_is_identity [] ⟨0, 0⟩ rfl).2.2 _⟩

/-- C4: With copies the receiver's middleware list into a freshly
allocated backing array (never aliasing the receiver's), so appending
further middleware to the original Mux through Use afterwards changes
neither the derived Mux's middleware list nor the engine state holding the
handlers registered through it. -/
theorem c4_with_copies_so_use_cannot_alias (st : RegState) (m : Mux)
    (x : Middleware) (ys : List Middleware)
    (hwf : wfS st.heap m.middlewares) :
    readS (Mux.With st m [x]).2.heap (Mux.With st m [x]).1.middlewares
        = readS st.heap m.middlewares ++ [x] ∧
    st.heap.length ≤ (Mux.With st m [x]).1.middlewares.arr ∧
    readS (Mux.Use (Mux.With st m [x]).2 m ys).2.heap
        (Mux.With st m [x]).1.middlewares
      = readS (Mux.With st m [x]).2.heap (Mux.With st m [x]).1.middlewares ∧
    (Mux.Use (Mux.With st m [x]).2 m ys).2.engines
      = (Mux.With st m [x]).2.engines := by
  obtain ⟨_, _, _, hread, hfresh, hwfd, _⟩ := With_spec st m [x] hwf
  refine ⟨hread, hfresh, ?_, rfl⟩
  have hgoal : Mux.Use (Mux.With st m [x]).2 m ys
      = ({ m with middlewares :=
            (goAppend (Mux.With st m [x]).2.heap m.middlewares ys).1 },
         { (Mux.With st m [x]).2 with heap :=
            (goAppend (Mux.With st m [x]).2.heap m.middlewares ys).2 }) := rfl
  rw [hgoal]
  apply readS_congr
  apply goAppend_frame
  · have h1 := hwf.1
    omega
  · exact hwfd.1

/-- Witness for C4 over a one-Mux world: the derived Mux's list is the
original list plus the extra middleware in a fresh array, and a later Use
on the original leaves it untouched. -/
theorem c4_with_copies_so_use_cannot_alias_witness :
    readS (Mux.With ⟨[[]], []⟩ ⟨0, ⟨0, 0⟩, ""⟩ [fun k => k]).2.heap
        (Mux.With ⟨[[]], []⟩ ⟨0, ⟨0, 0⟩, ""⟩ [fun k => k]).1.middlewares
      = readS (⟨[[]], []⟩ : RegState).heap
          (⟨0, ⟨0, 0⟩, ""⟩ : Mux).middlewares ++ [fun k => k] ∧
    (⟨[[]], []⟩ : RegState).heap.length
      ≤ (Mux.With ⟨[[]], []⟩ ⟨0, ⟨0, 0⟩, ""⟩ [fun k => k]).1.middlewares.arr ∧
    readS (Mux.Use (Mux.With ⟨[[]], []⟩ ⟨0, ⟨0, 0⟩, ""⟩ [fun k => k]).2
          ⟨0, ⟨0, 0⟩, ""⟩ [fun k => k]).2.heap
        (Mux.With ⟨[[]], []⟩ ⟨0, ⟨0, 0⟩, ""⟩ [fun k => k]).1.middlewares
      = readS (Mux.With ⟨[[]], []⟩ ⟨0, ⟨0, 0⟩, ""⟩ [fun k => k]).2.heap
          (Mux.With ⟨[[]], []⟩ ⟨0, ⟨0, 0⟩, ""⟩ [fun k => k]).1.middlewares ∧
    (Mux.Use (Mux.With ⟨[[]], []⟩ ⟨0, ⟨0, 0⟩, ""⟩ [fun k => k]).2
          ⟨0, ⟨0, 0⟩, ""⟩ [fun k => k]).2.engines
      = (Mux.With ⟨[[]], []⟩ ⟨0, ⟨0, 0⟩, ""⟩ [fun k => k]).2.engines :=
  c4_with_copies_so_use_cannot_alias ⟨[[]], []⟩ ⟨0, ⟨0, 0⟩, ""⟩
    (fun k => k) [fun k => k] (by decide)

/-- C6: Append builds the new chain in a freshly allocated backing array:
the receiver's list is unchanged, the receiver's Then afterwards composes
exactly what it composed before, the new chain holds the receiver's list
followed by the extra middlewares, and Extend is Append applied to the
other chain's full slice. -/
theorem c6_append_does_not_mutate_and_extend_is_append
    (h : Heap Middleware) (c : Chain) (ms : GoSlice)
    (hwfc : wfS h c.middlewares) (hwfm : wfS h ms) :
    readS (Chain.Append h c ms).2 c.middlewares = readS h c.middlewares ∧
    (∀ hd : Handler,
      Chain.Then (Chain.Append h c ms).2 c hd = Chain.Then h c hd) ∧
    readS (Chain.Append h c ms).2 (Chain.Append h c ms).1.middlewares
      = readS h c.middlewares ++ readS h ms ∧
    (∀ d : Chain, Chain.Extend h c d = Chain.Append h c d.middlewares) := by
  set cap := c.middlewares.len + ms.len with hcap
  set h1 := h ++ [List.replicate cap (default : Middleware)] with hh1
  set nc : GoSlice := ⟨h.length, 0⟩ with hnc
  set xs1 := readS h1 c.middlewares with hxs1
  set p2 := goAppend h1 nc xs1 with hp2
  set xs2 := readS p2.2 ms with hxs2
  set p3 := goAppend p2.2 p2.1 xs2 with hp3
  have hAeq : Chain.Append h c ms = (⟨p3.1⟩, p3.2) := rfl
  have hh1len : h1.length = h.length + 1 := by simp [hh1]
  have hxs1h : xs1 = readS h c.middlewares := by
    rw [hxs1]
    exact readS_congr (arrOf_append_lt h _ c.middlewares hwfc.1)
  have hwf1 : wfS h1 nc := by
    constructor
    · simp only [hnc]; omega
    · simp only [hnc]; omega
  have hspec2 := goAppend_spec h1 nc xs1 hwf1
  have hread2 : readS p2.2 p2.1 = xs1 := by
    rw [hp2, hspec2.2.1]
    simp [readS, hnc]
  have harr2cases : p2.1.arr = h.length ∨ p2.1.arr = h1.length := by
    rw [hp2]
    simpa [hnc] using hspec2.2.2.2.1
  have hlen2 : h1.length ≤ p2.2.length := by rw [hp2]; exact hspec2.2.2.2.2
  have hframe2 : ∀ t : GoSlice, t.arr < h.length → arrOf p2.2 t = arrOf h t := by
    intro t ht
    rw [hp2]
    rw [goAppend_frame h1 nc t xs1 (by simp [hnc]; omega) (by omega)]
    exact arrOf_append_lt h _ t ht
  have hxs2h : xs2 = readS h ms := by
    rw [hxs2]
    exact readS_congr (hframe2 ms hwfm.1)
  have hspec3 := goAppend_spec p2.2 p2.1 xs2 hspec2.2.2.1
  have hframe3 : ∀ t : GoSlice, t.arr < h.length → arrOf p3.2 t = arrOf h t := by
    intro t ht
    rw [hp3]
    rw [goAppend_frame p2.2 p2.1 t xs2 (by omega) (by omega)]
    exact hframe2 t ht
  have hrecv : readS p3.2 c.middlewares = readS h c.middlewares :=
    readS_congr (hframe3 c.middlewares hwfc.1)
  rw [hAeq]
  refine ⟨hrecv, ?_, ?_, fun d => rfl⟩
  · intro hd
    simp only [Chain.Then, hrecv]
  · show readS p3.2 p3.1 = readS h c.middlewares ++ readS h ms
    rw [hp3, hspec3.2.1, hread2, hxs1h, hxs2h]

/-- Witness for C6 over a two-array heap holding one middleware each: the
receiver keeps its list and behavior, the appended chain concatenates, and
Extend agrees with Append on a concrete chain. -/
theorem c6_append_does_not_mutate_and_extend_is_append_witness :
    readS (Chain.Append [[fun k => k], [fun k => k]] ⟨⟨0, 1⟩⟩ ⟨1, 1⟩).2
        (⟨⟨0, 1⟩⟩ : Chain).middlewares
      = readS ([[fun k => k], [fun k => k]] : Heap Middleware)
          (⟨⟨0, 1⟩⟩ : Chain).middlewares ∧
    Chain.Then (Chain.Append [[fun k => k], [fun k => k]] ⟨⟨0, 1⟩⟩ ⟨1, 1⟩).2
        ⟨⟨0, 1⟩⟩ (fun w _ => (w, none))
      = Chain.Then [[fun k => k], [fun k => k]] ⟨⟨0, 1⟩⟩
          (fun w _ => (w, none)) ∧
    readS (Chain.Append [[fun k => k], [fun k => k]] ⟨⟨0, 1⟩⟩ ⟨1, 1⟩).2
        (Chain.Append [[fun k => k], [fun k => k]] ⟨⟨0, 1⟩⟩ ⟨1, 1⟩).1.middlewares
      = readS ([[fun k => k], [fun k => k]] : Heap Middleware)
          (⟨⟨0, 1⟩⟩ : Chain).middlewares
        ++ readS ([[fun k => k], [fun k => k]] : Heap Middleware) ⟨1, 1⟩ ∧
    Chain.Extend [[fun k => k], [fun k => k]] ⟨⟨0, 1⟩⟩ ⟨⟨1, 1⟩⟩
      = Chain.Append [[fun k => k], [fun k => k]] ⟨⟨0, 1⟩⟩ ⟨1, 1⟩ := by
  have hc := c6_append_does_not_mutate_and_extend_is_append
    [[fun k => k], [fun k => k]] ⟨⟨0, 1⟩⟩ ⟨1, 1⟩ (by decide) (by decide)
  exact ⟨hc.1, hc.2.1 _, hc.2.2.1, hc.2.2.2 ⟨⟨1, 1⟩⟩⟩

/-- Specification of Mux.Route with a nil callback on a pattern whose
last byte is c: it derives via With() and extends the prefix with the
slash-normalized pattern. -/
theorem Route_spec (st : RegState) (m : Mux) (p : String) (c : Char)
    (hlast : p.data.getLast? = some c) :
    Mux.Route st m p none
      = some ({ chi := m.chi,
                middlewares := (Mux.With st m []).1.middlewares,
                pfx := m.pfx ++ (if c ≠ '/' then p ++ "/" else p) },
              (Mux.With st m []).2) := by
  unfold Mux.Route
  rw [hlast]
  rfl

/-- C5 (amended): Route appends a path separator to a pattern that does
not already end with one, and the derived Mux's prefix is the receiver's
prefix followed by the normalized pattern, concatenated verbatim with no
separator deduplication; hence nesting Route("/v1", ...) with
Route("/api", ...) yields effective prefix "/v1//api/" (double slash) for
every trailing-separator combination of the two arguments — not
"/v1/api/" as the original claim stated. -/
theorem c5_route_prefix_normalization (st : RegState) (m : Mux)
    (p1 p2 : String) (c1 c2 : Char)
    (h1 : p1.data.getLast? = some c1) (h2 : p2.data.getLast? = some c2) :
    ∃ q1 q2 : Mux × RegState,
      Mux.Route st m p1 none = some q1 ∧
      Mux.Route q1.2 q1.1 p2 none = some q2 ∧
      q1.1.pfx = m.pfx ++ (if c1 ≠ '/' then p1 ++ "/" else p1) ∧
      q2.1.pfx = m.pfx ++ (if c1 ≠ '/' then p1 ++ "/" else p1)
                        ++ (if c2 ≠ '/' then p2 ++ "/" else p2) ∧
      ((p1 = "/v1" ∨ p1 = "/v1/") → (p2 = "/api" ∨ p2 = "/api/") →
        q2.1.pfx = m.pfx ++ "/v1//api/") := by
  refine ⟨_, _, Route_spec st m p1 c1 h1, Route_spec _ _ p2 c2 h2, rfl, rfl, ?_⟩
  rintro (rfl | rfl) (rfl | rfl)
  · have e1 : some c1 = some '1' := by rw [← h1]; decide
    have e2 : some c2 = some 'i' := by rw [← h2]; decide
    obtain rfl := Option.some.inj e1
    obtain rfl := Option.some.inj e2
    show (m.pfx ++ _) ++ _ = _
    rw [if_pos (by decide), if_pos (by decide), String.append_assoc]
    congr 1
  · have e1 : some c1 = some '1' := by rw [← h1]; decide
    have e2 : some c2 = some '/' := by rw [← h2]; decide
    obtain rfl := Option.some.inj e1
    obtain rfl := Option.some.inj e2
    show (m.pfx ++ _) ++ _ = _
    rw [if_pos (by decide), if_neg (by decide), String.append_assoc]
    congr 1
  · have e1 : some c1 = some '/' := by rw [← h1]; decide
    have e2 : some c2 = some 'i' := by rw [← h2]; decide
    obtain rfl := Option.some.inj e1
    obtain rfl := Option.some.inj e2
    show (m.pfx ++ _) ++ _ = _
    rw [if_neg (by decide), if_pos (by decide), String.append_assoc]
    congr 1
  · have e1 : some c1 = some '/' := by rw [← h1]; decide
    have e2 : some c2 = some '/' := by rw [← h2]; decide
    obtain rfl := Option.some.inj e1
    obtain rfl := Option.some.inj e2
    show (m.pfx ++ _) ++ _ = _
    rw [if_neg (by decide), if_neg (by decide), String.append_assoc]
    congr 1

/-- Counterexample for C5 as originally stated: on a fresh root Mux,
Route("/v1") nested with Route("/api") yields effective registration
prefix "/v1//api/" (the normalized patterns concatenate without separator
deduplication), which differs from the claimed "/v1/api/". -/
theorem c5_nested_route_double_slash_counterexample :
    ((Mux.Route ⟨[[]], []⟩ ⟨0, ⟨0, 0⟩, ""⟩ "/v1" none).bind
      (fun q1 => (Mux.Route q1.2 q1.1 "/api" none).map (fun q2 => q2.1.pfx)))
      = some "/v1//api/" ∧
    some ("/v1//api/" : String) ≠ some "/v1/api/" :=
  ⟨rfl, by decide⟩

/-- Witness for C5 (amended): nesting Route("/v1") and Route("/api") on a
fresh root Mux succeeds and the inner prefix is "/v1//api/". -/
theorem c5_route_prefix_normalization_witness :
    (Mux.Route ⟨[[]], []⟩ ⟨0, ⟨0, 0⟩, ""⟩ "/v1" none).isSome = true ∧
    ((Mux.Route ⟨[[]], []⟩ ⟨0, ⟨0, 0⟩, ""⟩ "/v1" none).bind
      (fun q1 => (Mux.Route q1.2 q1.1 "/api" none).map (fun q2 => q2.1.pfx)))
      = some "/v1//api/" := by
  obtain ⟨q1, q2, ha, hb, hc, hd, he⟩ :=
    c5_route_prefix_normalization ⟨[[]], []⟩ ⟨0, ⟨0, 0⟩, ""⟩ "/v1" "/api"
      '1' 'i' (by decide) (by decide)
  refine ⟨by rw [ha]; rfl, ?_⟩
  rw [ha]
  show (Mux.Route q1.2 q1.1 "/api" none).map (fun q2 => q2.1.pfx)
    = some "/v1//api/"
  rw [hb]
  show some q2.1.pfx = some "/v1//api/"
  rw [he (Or.inl rfl) (Or.inl rfl)]
  rfl

/-- C9: Route with the empty pattern hits the out-of-range index in the
trailing-separator normalization (the Go panic, modelled as none), and any
non-empty pattern is safe (the call returns a derived Mux). -/
theorem c9_route_empty_pattern_panics (st : RegState) (m : Mux)
    (fn : Option RouteCallback) :
    Mux.Route st m "" fn = none ∧
    ∀ p : String, p ≠ "" → (Mux.Route st m p fn).isSome = true := by
  refine ⟨rfl, ?_⟩
  intro p hp
  unfold Mux.Route
  cases hlast : p.data.getLast? with
  | none =>
    exact absurd (String.ext (List.getLast?_eq_none_iff.mp hlast)) hp
  | some c => rfl

/-- Witness for C9: the empty pattern is rejected (panic) while "/x"
succeeds, on a fresh world. -/
theorem c9_route_empty_pattern_panics_witness :
    Mux.Route ⟨[[]], []⟩ ⟨0, ⟨0, 0⟩, ""⟩ "" none = none ∧
    (Mux.Route ⟨[[]], []⟩ ⟨0, ⟨0, 0⟩, ""⟩ "/x" none).isSome = true :=
  ⟨(c9_route_empty_pattern_panics ⟨[[]], []⟩ ⟨0, ⟨0, 0⟩, ""⟩ none).1,
   (c9_route_empty_pattern_panics ⟨[[]], []⟩ ⟨0, ⟨0, 0⟩, ""⟩ none).2 "/x"
     (by decide)⟩

/-- C10: Group(nil) and Route(p, nil) with a non-empty pattern tolerate
the nil callback: no callback is invoked, and the derived Mux still comes
back with the same engine, a fresh copy of the middleware list, the same
prefix for Group, the extended prefix for Route, and the engine store
untouched. -/
theorem c10_group_route_tolerate_nil_callback (st : RegState) (m : Mux)
    (p : String) (c : Char) (hlast : p.data.getLast? = some c)
    (hwf : wfS st.heap m.middlewares) :
    ((Mux.Group st m none).1.chi = m.chi ∧
     (Mux.Group st m none).1.pfx = m.pfx ∧
     readS (Mux.Group st m none).2.heap (Mux.Group st m none).1.middlewares
       = readS st.heap m.middlewares ∧
     st.heap.length ≤ (Mux.Group st m none).1.middlewares.arr ∧
     (Mux.Group st m none).2.engines = st.engines) ∧
    (∃ q : Mux × RegState, Mux.Route st m p none = some q ∧
     q.1.chi = m.chi ∧
     q.1.pfx = m.pfx ++ (if c ≠ '/' then p ++ "/" else p) ∧
     readS q.2.heap q.1.middlewares = readS st.heap m.middlewares ∧
     st.heap.length ≤ q.1.middlewares.arr ∧
     q.2.engines = st.engines) := by
  obtain ⟨ha, hb, hc, hd, he, hf, _⟩ := With_spec st m [] hwf
  have hd0 : readS (Mux.With st m []).2.heap (Mux.With st m []).1.middlewares
      = readS st.heap m.middlewares := by simpa using hd
  constructor
  · have hg : Mux.Group st m none = Mux.With st m [] := rfl
    rw [hg]
    exact ⟨ha, hb, hd0, he, hc⟩
  · refine ⟨_, Route_spec st m p c hlast, rfl, rfl, hd0, he, hc⟩

/-- Witness for C10 on a fresh world with pattern "/x": Group(nil) keeps
engine, list and prefix; Route("/x", nil) succeeds. -/
theorem c10_group_route_tolerate_nil_callback_witness :
    ((Mux.Group ⟨[[]], []⟩ ⟨0, ⟨0, 0⟩, ""⟩ none).1.chi = 0 ∧
     (Mux.Group ⟨[[]], []⟩ ⟨0, ⟨0, 0⟩, ""⟩ none).2.engines = [] ∧
     readS (Mux.Group ⟨[[]], []⟩ ⟨0, ⟨0, 0⟩, ""⟩ none).2.heap
       (Mux.Group ⟨[[]], []⟩ ⟨0, ⟨0, 0⟩, ""⟩ none).1.middlewares
       = readS ([[]] : Heap Middleware) ⟨0, 0⟩) ∧
    (Mux.Route ⟨[[]], []⟩ ⟨0, ⟨0, 0⟩, ""⟩ "/x" none).isSome = true := by
  have h := c10_group_route_tolerate_nil_callback ⟨[[]], []⟩ ⟨0, ⟨0, 0⟩, ""⟩
    "/x" 'x' (by decide) (by decide)
  refine ⟨⟨h.1.1, h.1.2.2.2.2, h.1.2.2.1⟩, ?_⟩
  obtain ⟨q, hq, _⟩ := h.2
  rw [hq]
  rfl

end Httpx
